import Mathlib

/-!
Verification of the node-firebirdsql client library specification.

The repository ships a TypeScript declaration file (`src/index.d.ts`)
describing the public surface of a Firebird wire-protocol client:
connections, transactions, prepared statements with cursors, blob I/O,
a connection pool, isolation-level constants and the callback calling
convention.  The runtime implementation is not part of the sources, so
the behavioural components (request sequencer, statement/cursor engine,
transaction manager, blob I/O, pool policy, type codec) are modelled
here from the specification's own words, while the type-level facts
(signatures, constants, callback shapes) follow `src/index.d.ts`.
-/

namespace Firebird

/-- Errors of the error taxonomy of the spec: transport/connection errors,
usage errors (operating on a dropped or closed handle), invalid-handle
errors, and server-reported status vectors. -/
inductive FbError
  | connection
  | usage
  | invalidHandle
  | server (code : Nat)
  deriving DecidableEq, Repr

/-- Column metadata as declared in `src/index.d.ts` (`ColumnMetadata`):
alias name, SQL type code, subtype, scale, byte length, source
relation/field/owner and nullability. -/
structure ColumnMetadata where
  aliasName : String
  type : Nat
  subType : Option Nat := none
  scale : Option Int := none
  length : Option Nat := none
  relation : Option String := none
  relationAlias : Option String := none
  field : Option String := none
  owner : Option String := none
  nullable : Option Bool := none
  deriving DecidableEq, Repr

/-- A raw (wire-decoded) row: one cell value per output column. -/
abbrev RawRow := List Int

/-- A shaped row: either an ordered array of cells (`RowArray`) or a
name-keyed mapping built from the column aliases (`RowObject`), as in
`src/index.d.ts` (`Row = RowArray | RowObject`). -/
inductive Row
  | arrayRow (cells : List Int)
  | objectRow (cells : List (String × Int))
  deriving DecidableEq, Repr

/-- Row shaping: decode-time configuration choice between ordered list
and name-keyed mapping, both produced from the same descriptor set
(spec §4.6). -/
def shapeRow (asObject : Bool) (meta : List ColumnMetadata) (raw : RawRow) : Row :=
  if asObject then .objectRow (List.zip (meta.map (·.aliasName)) raw)
  else .arrayRow raw

/-- `FetchResult` as declared in `src/index.d.ts`: a batch of rows (or
null) plus the `fetched` flag; `fetched = false` signals cursor
exhaustion. -/
structure FetchResult where
  data : Option (List RawRow)
  fetched : Bool
  deriving DecidableEq, Repr

/-- A transaction as seen by a statement: a server handle
(`src/index.d.ts`, `Transaction`). -/
structure Transaction where
  handle : Nat
  deriving DecidableEq, Repr

/-- Modelled from the spec: the cursor state of the statement/cursor
engine (§4.3), whose implementation is absent from `src/`.  A statement
is either without an active cursor (`closed`, i.e. `Prepared`), has an
active cursor with the rows the server still holds (`active`), or is
`exhausted` after the server signalled end-of-cursor. -/
inductive CursorState
  | closed
  | active (remaining : List RawRow)
  | exhausted
  deriving DecidableEq, Repr

/-- Modelled from the spec: the per-statement state of the
statement/cursor engine (§4.3), with the server handle and a count of
wire round trips issued for this statement. -/
structure StatementState where
  handle : Nat
  cursor : CursorState
  roundTrips : Nat
  deriving DecidableEq, Repr

/-- Modelled from the spec: `fetch` of the statement/cursor engine
(§4.3), absent from `src/`.  Requests up to `count` rows; sets
`fetched = false` exactly when the server signals end-of-cursor, after
which the cursor is `Exhausted` and repeat fetches return
`{data: null, fetched: false}` without a new round trip.  Fetching with
no cursor is a usage error. -/
def fetchCore (count : Nat) (s : StatementState) :
    Except FbError (FetchResult × StatementState) :=
  match s.cursor with
  | .closed => .error .usage
  | .exhausted => .ok ({ data := none, fetched := false }, s)
  | .active remaining =>
    if remaining.length ≤ count then
      .ok ({ data := some (remaining.take count), fetched := false },
           { s with cursor := .exhausted, roundTrips := s.roundTrips + 1 })
    else
      .ok ({ data := some (remaining.take count), fetched := true },
           { s with cursor := .active (remaining.drop count),
                    roundTrips := s.roundTrips + 1 })

/-- `Statement.fetch` from `src/index.d.ts`: the transaction argument is
`Transaction | undefined` (modelled as `Option Transaction`); the cursor
context is carried by the statement state itself. -/
def fetch (tx : Option Transaction) (count : Nat) (s : StatementState) :
    Except FbError (FetchResult × StatementState) :=
  fetchCore count s

/-- Modelled from the spec: `fetchAll` (§8, `src/index.d.ts` line 166),
the direct full fetch returning every remaining row of the active
cursor (or null when there is none), absent from `src/`. -/
def fetchAllCore (s : StatementState) :
    Except FbError (Option (List RawRow) × StatementState) :=
  match s.cursor with
  | .closed => .error .usage
  | .exhausted => .ok (none, s)
  | .active remaining =>
    .ok (some remaining,
         { s with cursor := .exhausted, roundTrips := s.roundTrips + 1 })

/-- `Statement.fetchAll` from `src/index.d.ts`: transaction argument is
`Transaction | undefined`. -/
def fetchAll (tx : Option Transaction) (s : StatementState) :
    Except FbError (Option (List RawRow) × StatementState) :=
  fetchAllCore s

/-- Modelled from the spec: `execute` (§4.3) opens a fresh cursor over
the server's result rows for a SELECT statement. -/
def executeStmt (tx : Transaction) (rows : List RawRow) (s : StatementState) :
    StatementState :=
  { s with cursor := .active rows, roundTrips := s.roundTrips + 1 }

/-- Modelled from the spec: repeated `fetch` until a result reports
`fetched = false`, concatenating the returned batches in order (§8).
`fuel` bounds the number of iterations; any fuel at least the number of
remaining rows suffices. -/
def drainFetch (tx : Option Transaction) (count : Nat) :
    Nat → StatementState → List RawRow × StatementState
  | 0, s => ([], s)
  | fuel + 1, s =>
    match fetch tx count s with
    | .error _ => ([], s)
    | .ok (r, s') =>
      let batch := r.data.getD []
      if r.fetched then
        let rest := drainFetch tx count fuel s'
        (batch ++ rest.1, rest.2)
      else (batch, s')

/-! ### Transaction manager (spec §4.4) -/

/-- Wire message kinds relevant to the transaction lifecycle
(spec §6: start-transaction, execute, commit, commit-retaining,
rollback, rollback-retaining). -/
inductive MsgKind
  | opTransaction
  | opCommit
  | opCommitRetaining
  | opRollback
  | opRollbackRetaining
  | opExecute
  deriving DecidableEq, Repr

/-- Modelled from the spec: the lifecycle phase of a transaction handle
(§3, §4.4), absent from `src/`.  A transaction exists from start
(`started`, with a snapshot generation) until commit/rollback releases
the handle (`ended`); retaining variants keep it `started` with a fresh
snapshot. -/
inductive TxPhase
  | started (snapshot : Nat)
  | ended
  deriving DecidableEq, Repr

/-- Modelled from the spec: `commit` (§4.4) ends the transaction and
releases its handle; it sends one commit message.  Reusing an ended
handle is an invalid-handle error with no wire traffic. -/
def commitTx : TxPhase → (Except FbError TxPhase) × List MsgKind
  | .started _ => (.ok .ended, [.opCommit])
  | .ended => (.error .invalidHandle, [])

/-- Modelled from the spec: `commitRetaining` (§4.4) applies the commit
side effect but keeps the transaction handle alive with a fresh
snapshot. -/
def commitRetainingTx : TxPhase → (Except FbError TxPhase) × List MsgKind
  | .started n => (.ok (.started (n + 1)), [.opCommitRetaining])
  | .ended => (.error .invalidHandle, [])

/-- Modelled from the spec: `rollback` (§4.4) ends the transaction and
releases its handle. -/
def rollbackTx : TxPhase → (Except FbError TxPhase) × List MsgKind
  | .started _ => (.ok .ended, [.opRollback])
  | .ended => (.error .invalidHandle, [])

/-- Modelled from the spec: `rollbackRetaining` (§4.4) discards changes
but keeps the handle alive with a fresh snapshot. -/
def rollbackRetainingTx : TxPhase → (Except FbError TxPhase) × List MsgKind
  | .started n => (.ok (.started (n + 1)), [.opRollbackRetaining])
  | .ended => (.error .invalidHandle, [])

/-- Modelled from the spec: issuing an `execute` under a transaction
handle (§4.3).  A live (started) handle carries the execute straight to
the wire; an ended handle is a usage/invalid-handle error detected
without wire traffic. -/
def executeTx : TxPhase → (Except FbError Unit) × List MsgKind
  | .started _ => (.ok (), [.opExecute])
  | .ended => (.error .invalidHandle, [])

/-! ### Isolation constants and `startTransaction` (spec §4.4, §6) -/

/-- `Isolation` from `src/index.d.ts`: an ordered sequence of small
integer transaction-parameter-block codes. -/
abbrev Isolation := List Nat

def isc_tpb_version3 : Nat := 3
def isc_tpb_consistency : Nat := 1
def isc_tpb_concurrency : Nat := 2
def isc_tpb_wait : Nat := 6
def isc_tpb_read : Nat := 8
def isc_tpb_write : Nat := 9
def isc_tpb_read_committed : Nat := 15
def isc_tpb_rec_version : Nat := 17
def isc_tpb_no_rec_version : Nat := 18

/-- Modelled from the spec: the read-uncommitted preset, one of the five
named opaque ordered-code sequences of §6; the concrete TPB codes follow
the Firebird transaction-parameter-block convention (glossary, §4.4). -/
def ISOLATION_READ_UNCOMMITTED : Isolation :=
  [isc_tpb_version3, isc_tpb_write, isc_tpb_wait, isc_tpb_read_committed,
   isc_tpb_no_rec_version]

/-- Modelled from the spec: the read-committed preset (§4.4, §6). -/
def ISOLATION_READ_COMMITED : Isolation :=
  [isc_tpb_version3, isc_tpb_write, isc_tpb_wait, isc_tpb_read_committed,
   isc_tpb_rec_version]

/-- Modelled from the spec: the repeatable-read preset (§4.4, §6). -/
def ISOLATION_REPEATABLE_READ : Isolation :=
  [isc_tpb_version3, isc_tpb_write, isc_tpb_wait, isc_tpb_concurrency]

/-- Modelled from the spec: the serializable preset (§4.4, §6). -/
def ISOLATION_SERIALIZABLE : Isolation :=
  [isc_tpb_version3, isc_tpb_write, isc_tpb_wait, isc_tpb_consistency]

/-- Modelled from the spec: the read-committed-read-only preset
(§4.4, §6). -/
def ISOLATION_READ_COMMITED_READ_ONLY : Isolation :=
  [isc_tpb_version3, isc_tpb_read, isc_tpb_wait, isc_tpb_read_committed,
   isc_tpb_rec_version]

/-- The five named isolation presets exposed by the library
(`src/index.d.ts` lines 22–26), in declaration order. -/
def isolationPresets : List Isolation :=
  [ISOLATION_READ_UNCOMMITTED, ISOLATION_READ_COMMITED,
   ISOLATION_REPEATABLE_READ, ISOLATION_SERIALIZABLE,
   ISOLATION_READ_COMMITED_READ_ONLY]

/-- Modelled from the spec: the transaction parameter block used by
`startTransaction` (§4.4): the given isolation, defaulting to
read-committed when omitted. -/
def startTransactionTPB : Option Isolation → Isolation
  | some iso => iso
  | none => ISOLATION_READ_COMMITED

/-! ### Request sequencer (spec §4.2) -/

/-- Modelled from the spec: the request sequencer's state (§4.2), absent
from `src/`: the ordered queue of pending requests (head = oldest; the
head is the one in flight once dispatched).  Requests are identified by
their enqueue order. -/
structure SeqState where
  queue : List Nat
  deriving DecidableEq, Repr

/-- Modelled from the spec: `enqueue` (§4.2) appends to the ordered
queue; if no request is outstanding the head is dispatched
immediately. -/
def enqueueReq (r : Nat) (s : SeqState) : SeqState :=
  { queue := s.queue ++ [r] }

/-- Modelled from the spec: on `onMessage` (§4.2) the sequencer matches
the response to the head of the queue, invokes its callback with the
response, pops the queue and dispatches the new head.  Returns the
invocation performed, if any. -/
def onMessage (resp : Nat) (s : SeqState) :
    Option (Nat × Except FbError Nat) × SeqState :=
  match s.queue with
  | [] => (none, s)
  | r :: rest => (some (r, .ok resp), { queue := rest })

/-- Modelled from the spec: the sequencer's failure path (§4.2): when
the Transport reports closure, every queued `onResponse` is invoked with
a connection-error, in original enqueue order, and the queue is
cleared.  Returns the list of performed invocations. -/
def onClosed (s : SeqState) : List (Nat × FbError) × SeqState :=
  (s.queue.map (fun r => (r, FbError.connection)), { queue := [] })

/-! ### Pool (spec §4.7) -/

/-- Pool operations at its contract boundary: `acquire` (a `get` call,
identified by request id) and `release` of a `Database` (identified by
connection id). -/
inductive PoolOp
  | acquire (reqId : Nat)
  | release (dbId : Nat)
  deriving DecidableEq, Repr

/-- A pool event: a waiting or immediate acquirer's callback is resolved
with a database. -/
inductive PoolEvent
  | resolved (reqId : Nat) (dbId : Nat)
  deriving DecidableEq, Repr

/-- Modelled from the spec: the pool's state (§3, §4.7), absent from
`src/`: the bounded set of open connections (idle `available` plus
handed-out `inUse`), the FIFO `pending` queue of waiting acquisition
callbacks, and a source of fresh connection ids. -/
structure PoolState where
  maxConn : Nat
  nextId : Nat
  available : List Nat
  inUse : List Nat
  pending : List Nat
  deriving DecidableEq, Repr

/-- Number of simultaneously open connections held by the pool. -/
def openCount (s : PoolState) : Nat :=
  s.available.length + s.inUse.length

/-- Modelled from the spec: one pool transition (§4.7).  `acquire`
reuses an idle connection, or opens a new one while under `max`, or
queues the caller in FIFO order when exhausted; `release` satisfies the
oldest waiter if any, else returns the connection to the idle set. -/
def poolStep (s : PoolState) : PoolOp → PoolState × List PoolEvent
  | .acquire r =>
    match s.available with
    | d :: rest =>
      ({ s with available := rest, inUse := d :: s.inUse },
       [.resolved r d])
    | [] =>
      if openCount s < s.maxConn then
        ({ s with nextId := s.nextId + 1, inUse := s.nextId :: s.inUse },
         [.resolved r s.nextId])
      else
        ({ s with pending := s.pending ++ [r] }, [])
  | .release d =>
    if d ∈ s.inUse then
      match s.pending with
      | r :: rest => ({ s with pending := rest }, [.resolved r d])
      | [] =>
        ({ s with inUse := s.inUse.erase d, available := d :: s.available },
         [])
    else (s, [])

/-- A pool as constructed by `pool(max, options)`: no connection open,
nobody waiting. -/
def initPool (max : Nat) : PoolState :=
  { maxConn := max, nextId := 0, available := [], inUse := [], pending := [] }

/-- Run a sequence of pool operations. -/
def runPool (s : PoolState) : List PoolOp → PoolState
  | [] => s
  | op :: ops => runPool (poolStep s op).1 ops

/-! ### Blob I/O (spec §4.5) -/

/-- A blob segment: one chunk of bytes transferred in a single protocol
exchange. -/
abbrev Segment := List Nat

/-- Modelled from the spec: chunking helper for `batchSegments` (§4.5),
splitting a buffer into consecutive pieces of at most `segMax` bytes;
`fuel` bounds the recursion and the buffer's length always suffices. -/
def chunkGo (segMax : Nat) : Nat → List Nat → List Segment
  | _, [] => []
  | 0, b => [b]
  | fuel + 1, b => b.take segMax :: chunkGo segMax fuel (b.drop segMax)

/-- Modelled from the spec: split a buffer into segments of at most the
protocol's maximum segment size `segMax` (§4.5). -/
def chunkSegments (segMax : Nat) (b : List Nat) : List Segment :=
  chunkGo segMax b.length b

/-- Modelled from the spec: the write-side state of a blob opened by
`createBlob2` (§4.5): the ordered list of segments appended so far. -/
structure BlobWriteState where
  segments : List Segment
  deriving DecidableEq, Repr

/-- Modelled from the spec: `batchSegments(handle, buffer)` (§4.5)
appends one or more segments; large buffers are internally chunked to
the protocol's maximum segment size. -/
def batchSegments (segMax : Nat) (st : BlobWriteState) (buffer : List Nat) :
    BlobWriteState :=
  { segments := st.segments ++ chunkSegments segMax buffer }

/-- Modelled from the spec: the read-side state of a blob opened by
`openBlob` (§4.5): the segments not yet delivered, in order. -/
structure BlobReadState where
  pending : List Segment
  deriving DecidableEq, Repr

/-- Modelled from the spec: `getSegment(handle)` (§4.5) reads one
segment; `none` is the protocol's final-segment signal (no more
data). -/
def getSegment : BlobReadState → Option Segment × BlobReadState
  | ⟨[]⟩ => (none, ⟨[]⟩)
  | ⟨seg :: rest⟩ => (some seg, ⟨rest⟩)

/-- Modelled from the spec: repeated `getSegment` until the
final-segment signal, collecting segments in arrival order (§4.5);
`fuel` bounds the iteration and the segment count always suffices. -/
def readAllSegments : Nat → BlobReadState → List Segment
  | 0, _ => []
  | fuel + 1, st =>
    match getSegment st with
    | (none, _) => []
    | (some seg, st') => seg :: readAllSegments fuel st'

/-! ### Type codec: fixed-point numerics (spec §4.6) -/

/-- Modelled from the spec: decoding of a fixed-point numeric wire value
(§4.6), absent from `src/`.  The raw integer is scaled by the column's
scale: a negative scale divides by a power of ten, a non-negative one
multiplies, as a decoder computes it. -/
def decodeFixedPoint (raw : Int) (scale : Int) : ℚ :=
  if 0 ≤ scale then (raw : ℚ) * (10 : ℚ) ^ scale.toNat
  else (raw : ℚ) / (10 : ℚ) ^ (-scale).toNat

/-- Modelled from the spec: decoding one fixed-point numeric column uses
the scale from that column's descriptor (§4.6); a missing scale counts
as zero. -/
def decodeNumericColumn (m : ColumnMetadata) (raw : Int) : ℚ :=
  decodeFixedPoint raw (m.scale.getD 0)

/-! ### Callback calling convention (spec §7, `src/index.d.ts` line 7) -/

/-- The argument pair a completion callback
`(err: Error | null, result?: T)` is invoked with, derived from the
operation's outcome: an error invocation carries the error and no
result, a success invocation carries a null error and the result. -/
def callbackArgs (r : Except FbError α) : Option FbError × Option α :=
  match r with
  | .error e => (some e, none)
  | .ok a => (none, some a)

/-- Mutual exclusivity of callback outcomes: either a non-null error and
no result, or a null error and the result value. -/
def exclusiveOutcome (p : Option FbError × Option α) : Prop :=
  ((∃ e, p.1 = some e) ∧ p.2 = none) ∨ (p.1 = none ∧ ∃ v, p.2 = some v)

end Firebird

namespace Firebird

lemma fetch_def (tx : Option Transaction) (count : Nat) (s : StatementState) :
    fetch tx count s = fetchCore count s := rfl

/-- Draining an active cursor with positive batch size and enough fuel
returns exactly the remaining rows. -/
lemma drainFetch_active (tx : Option Transaction) (count : Nat)
    (hc : 1 ≤ count) :
    ∀ (fuel : Nat) (rows : List RawRow) (s : StatementState),
      s.cursor = .active rows → rows.length ≤ fuel →
      (drainFetch tx count fuel s).1 = rows := by
  intro fuel
  induction fuel with
  | zero =>
    intro rows s hcur hlen
    have : rows = [] := List.eq_nil_of_length_eq_zero (Nat.le_zero.mp hlen)
    simp [drainFetch, this]
  | succ fuel ih =>
    intro rows s hcur hlen
    by_cases hsmall : rows.length ≤ count
    · simp [drainFetch, fetch, fetchCore, hcur, hsmall, List.take_of_length_le]
    · push_neg at hsmall
      have hdrop : (rows.drop count).length ≤ fuel := by
        rw [List.length_drop]
        omega
      have hrec := ih (rows.drop count)
        { s with cursor := .active (rows.drop count),
                 roundTrips := s.roundTrips + 1 } rfl hdrop
      simp only [drainFetch, fetch, fetchCore, hcur]
      rw [if_neg (by omega)]
      simp only [Option.getD_some, if_pos rfl]
      rw [hrec]
      exact List.take_append_drop count rows

/-- A fetch result reporting `fetched = false` leaves the cursor
exhausted. -/
lemma fetch_false_exhausted (tx : Option Transaction) (count : Nat)
    (s s' : StatementState) (r : FetchResult)
    (h : fetch tx count s = .ok (r, s')) (hf : r.fetched = false) :
    s'.cursor = .exhausted := by
  rw [fetch_def] at h
  cases hcur : s.cursor with
  | closed => simp [fetchCore, hcur] at h
  | exhausted =>
    simp [fetchCore, hcur] at h
    rw [← h.2, hcur]
  | active remaining =>
    by_cases hlen : remaining.length ≤ count
    · simp [fetchCore, hcur, hlen] at h
      rw [← h.2]
    · simp [fetchCore, hcur, hlen] at h
      rw [← h.1] at hf
      simp at hf

/-- Chunking a buffer with positive maximum segment size and enough
fuel concatenates back to the buffer. -/
lemma chunkGo_flatten (segMax : Nat) (hseg : 1 ≤ segMax) :
    ∀ (fuel : Nat) (b : List Nat), b.length ≤ fuel →
      (chunkGo segMax fuel b).flatten = b := by
  intro fuel
  induction fuel with
  | zero =>
    intro b hb
    simp [List.eq_nil_of_length_eq_zero (Nat.le_zero.mp hb), chunkGo]
  | succ fuel ih =>
    intro b hb
    match b with
    | [] => simp [chunkGo]
    | x :: xs =>
      simp only [chunkGo, List.flatten_cons]
      rw [ih ((x :: xs).drop segMax)
        (by rw [List.length_drop]; simp only [List.length_cons] at hb ⊢; omega)]
      exact List.take_append_drop _ _

/-- Segments produced by `chunkSegments` concatenate back to the
original buffer. -/
lemma chunkSegments_flatten (segMax : Nat) (hseg : 1 ≤ segMax)
    (b : List Nat) : (chunkSegments segMax b).flatten = b :=
  chunkGo_flatten segMax hseg b.length b le_rfl

/-- Writing a sequence of buffers via `batchSegments` appends exactly
their bytes, in order, to the blob's segment stream. -/
lemma foldl_batchSegments_flatten (segMax : Nat) (hseg : 1 ≤ segMax) :
    ∀ (buffers : List (List Nat)) (st : BlobWriteState),
      (buffers.foldl (batchSegments segMax) st).segments.flatten
        = st.segments.flatten ++ buffers.flatten := by
  intro buffers
  induction buffers with
  | nil => intro st; simp
  | cons b bs ih =>
    intro st
    simp only [List.foldl_cons, List.flatten_cons]
    rw [ih]
    simp [batchSegments, chunkSegments_flatten segMax hseg]

/-- Reading with enough fuel delivers every pending segment in arrival
order. -/
lemma readAllSegments_all :
    ∀ (fuel : Nat) (segs : List Segment), segs.length ≤ fuel →
      readAllSegments fuel ⟨segs⟩ = segs := by
  intro fuel
  induction fuel with
  | zero =>
    intro segs h
    simp [List.eq_nil_of_length_eq_zero (Nat.le_zero.mp h), readAllSegments]
  | succ fuel ih =>
    intro segs h
    match segs with
    | [] => simp [readAllSegments, getSegment]
    | sg :: rest =>
      simp only [readAllSegments, getSegment]
      rw [ih rest (by simp only [List.length_cons] at h; omega)]

/-- Pool transitions never change the configured maximum. -/
lemma poolStep_maxConn (s : PoolState) (op : PoolOp) :
    (poolStep s op).1.maxConn = s.maxConn := by
  cases op with
  | acquire r =>
    cases h : s.available with
    | nil =>
      by_cases hlt : openCount s < s.maxConn <;> simp [poolStep, h, hlt]
    | cons d rest => simp [poolStep, h]
  | release d =>
    by_cases hd : d ∈ s.inUse
    · cases hp : s.pending <;> simp [poolStep, hd, hp]
    · simp [poolStep, hd]

/-- Pool transitions preserve the open-connection bound. -/
lemma poolStep_openCount (s : PoolState) (op : PoolOp)
    (h : openCount s ≤ s.maxConn) :
    openCount (poolStep s op).1 ≤ s.maxConn := by
  cases op with
  | acquire r =>
    cases ha : s.available with
    | nil =>
      simp only [poolStep, ha]
      split
      · rename_i hlt
        simp only [openCount, ha, List.length_nil, List.length_cons] at hlt h ⊢
        omega
      · simp only [openCount, ha, List.length_nil] at h ⊢
        omega
    | cons d rest =>
      simp only [poolStep, ha]
      simp only [openCount, ha, List.length_cons] at h ⊢
      omega
  | release d =>
    by_cases hd : d ∈ s.inUse
    · cases hp : s.pending with
      | cons r rest => simpa [poolStep, hd, hp, openCount] using h
      | nil =>
        simp only [poolStep, if_pos hd, hp]
        have hlen := List.length_erase_of_mem hd
        have hpos : 1 ≤ s.inUse.length := List.length_pos_of_mem hd
        simp only [openCount, List.length_cons] at h ⊢
        omega
    · simpa [poolStep, hd] using h

/-- Running any operation sequence preserves the open-connection
bound. -/
lemma runPool_openCount :
    ∀ (ops : List PoolOp) (s : PoolState), openCount s ≤ s.maxConn →
      openCount (runPool s ops) ≤ s.maxConn := by
  intro ops
  induction ops with
  | nil => intro s h; simpa [runPool] using h
  | cons op rest ih =>
    intro s h
    have h2 := poolStep_maxConn s op
    have h3 := ih (poolStep s op).1 (by rw [h2]; exact poolStep_openCount s op h)
    rw [h2] at h3
    simpa [runPool] using h3

/-- Every operation outcome produces a mutually exclusive callback
argument pair. -/
lemma exclusiveOutcome_callbackArgs (r : Except FbError α) :
    exclusiveOutcome (callbackArgs r) := by
  cases r with
  | error e => exact Or.inl ⟨⟨e, rfl⟩, rfl⟩
  | ok a => exact Or.inr ⟨rfl, ⟨a, rfl⟩⟩

/-! ### Claim theorems -/

/-- Claim C1: for a statement whose cursor is active (after `execute`
with bound parameters), repeatedly calling `fetch` until exhaustion
yields exactly the same row count and row values as a single `fetchAll`
call on the same statement, and the equality holds under both row-shape
configurations (array rows and name-keyed object rows). -/
theorem drainFetch_eq_fetchAll
    (tx : Option Transaction) (count fuel : Nat) (s : StatementState)
    (rows : List RawRow)
    (hcur : s.cursor = .active rows) (hc : 1 ≤ count)
    (hfuel : rows.length ≤ fuel) :
    ∃ allRows s',
      fetchAll tx s = .ok (some allRows, s') ∧
      (drainFetch tx count fuel s).1.length = allRows.length ∧
      ∀ (asObject : Bool) (meta : List ColumnMetadata),
        (drainFetch tx count fuel s).1.map (shapeRow asObject meta) =
          allRows.map (shapeRow asObject meta) := by
  refine ⟨rows, { s with cursor := .exhausted, roundTrips := s.roundTrips + 1 },
    ?_, ?_, ?_⟩
  · show fetchAllCore s = _
    simp [fetchAllCore, hcur]
  · rw [drainFetch_active tx count hc fuel rows s hcur hfuel]
  · intro asObject meta
    rw [drainFetch_active tx count hc fuel rows s hcur hfuel]

/-- Concrete instance of C1: a three-row cursor fetched two rows at a
time. -/
theorem drainFetch_eq_fetchAll_witness :
    (1 ≤ 2 ∧ ([[1, 2], [3, 4], [5, 6]] : List RawRow).length ≤ 3) ∧
    ∃ allRows s',
      fetchAll none (⟨1, .active [[1, 2], [3, 4], [5, 6]], 0⟩ : StatementState)
          = .ok (some allRows, s') ∧
      (drainFetch none 2 3
          (⟨1, .active [[1, 2], [3, 4], [5, 6]], 0⟩ : StatementState)).1.length
        = allRows.length ∧
      ∀ (asObject : Bool) (meta : List ColumnMetadata),
        (drainFetch none 2 3
            (⟨1, .active [[1, 2], [3, 4], [5, 6]], 0⟩ : StatementState)).1.map
              (shapeRow asObject meta)
          = allRows.map (shapeRow asObject meta) :=
  ⟨⟨by decide, by decide⟩,
   drainFetch_eq_fetchAll none 2 3 _ [[1, 2], [3, 4], [5, 6]] rfl (by decide)
     (by decide)⟩

/-- Claim C2: once a `fetch` returns `fetched = false`, every subsequent
`fetch` on that same cursor returns `fetched = false` with null data and
leaves the statement state (including its wire round-trip count)
unchanged — exhaustion is sticky and, the state being unchanged, never
reverts until a new execute replaces the cursor. -/
theorem fetch_exhaustion_sticky
    (tx tx' : Option Transaction) (count count' : Nat)
    (s s' : StatementState) (r : FetchResult)
    (h : fetch tx count s = .ok (r, s')) (hf : r.fetched = false) :
    fetch tx' count' s' = .ok ({ data := none, fetched := false }, s') := by
  have hx := fetch_false_exhausted tx count s s' r h hf
  rw [fetch_def]
  simp [fetchCore, hx]

/-- Concrete instance of C2: a one-row cursor is exhausted by its first
fetch; the next fetch reports `fetched = false`, null data, and no new
round trip. -/
theorem fetch_exhaustion_sticky_witness :
    fetch none 1 (⟨1, .active [[7]], 0⟩ : StatementState)
        = .ok ({ data := some [[7]], fetched := false },
               (⟨1, .exhausted, 1⟩ : StatementState)) ∧
    fetch none 1 (⟨1, .exhausted, 1⟩ : StatementState)
        = .ok ({ data := none, fetched := false },
               (⟨1, .exhausted, 1⟩ : StatementState)) :=
  ⟨rfl,
   fetch_exhaustion_sticky none none 1 1
     (⟨1, .active [[7]], 0⟩ : StatementState)
     (⟨1, .exhausted, 1⟩ : StatementState)
     { data := some [[7]], fetched := false } rfl rfl⟩

/-- Claim C3: after `commitRetaining` the same transaction handle stays
started and a new `execute` under it succeeds, with no start-transaction
message on the wire; after a plain `commit` the handle is ended and any
reuse fails with a usage/invalid-handle error. -/
theorem commitRetaining_reuse_commit_invalidates (n : Nat) :
    commitRetainingTx (.started n)
        = (.ok (.started (n + 1)), [.opCommitRetaining]) ∧
    executeTx (.started (n + 1)) = (.ok (), [.opExecute]) ∧
    MsgKind.opTransaction ∉
      (commitRetainingTx (.started n)).2 ++ (executeTx (.started (n + 1))).2 ∧
    commitTx (.started n) = (.ok .ended, [.opCommit]) ∧
    executeTx .ended = (.error .invalidHandle, []) := by
  refine ⟨rfl, rfl, ?_, rfl, rfl⟩
  simp [commitRetainingTx, executeTx]

/-- Claim C4: when the Transport reports closure, the sequencer invokes
every queued operation's `onResponse` with a connection-error, in the
original enqueue order, exactly once per queued request, and afterwards
the request queue is empty. -/
theorem onClosed_fails_all_queued_in_order (s : SeqState) :
    (onClosed s).1.map Prod.fst = s.queue ∧
    (∀ p ∈ (onClosed s).1, p.2 = FbError.connection) ∧
    (onClosed s).2.queue = [] ∧
    (onClosed s).1.length = s.queue.length := by
  refine ⟨?_, ?_, rfl, ?_⟩
  · show (s.queue.map (fun r => (r, FbError.connection))).map Prod.fst = s.queue
    rw [List.map_map]
    exact List.map_id' s.queue
  · simp [onClosed]
  · simp [onClosed]

/-- Claim C5: a pool constructed with `max = k` never has more than `k`
connections simultaneously open under any operation sequence; an
`acquire` arriving while all `k` are in use is appended to the FIFO
pending queue and resolves no callback, and a `release` resolves exactly
the oldest pending callback. -/
theorem pool_bounded_and_fifo (k : Nat) (ops : List PoolOp)
    (s : PoolState) (r d : Nat) :
    openCount (runPool (initPool k) ops) ≤ k ∧
    (s.available = [] → s.maxConn ≤ openCount s →
      poolStep s (.acquire r) = ({ s with pending := s.pending ++ [r] }, [])) ∧
    (d ∈ s.inUse → ∀ (r' : Nat) (rest : List Nat), s.pending = r' :: rest →
      poolStep s (.release d) = ({ s with pending := rest },
        [.resolved r' d])) := by
  refine ⟨?_, ?_, ?_⟩
  · have h := runPool_openCount ops (initPool k) (by simp [openCount, initPool])
    simpa [initPool] using h
  · intro ha hm
    simp only [poolStep, ha]
    rw [if_neg (by omega)]
  · intro hd r' rest hp
    simp only [poolStep, if_pos hd, hp]

/-- Concrete instance of C5: with `max = 1`, two acquires leave one open
connection; an acquire against a full pool queues; a release hands the
connection to the oldest waiter. -/
theorem pool_bounded_and_fifo_witness :
    openCount (runPool (initPool 1) [.acquire 0, .acquire 1]) ≤ 1 ∧
    poolStep (⟨1, 1, [], [0], [5]⟩ : PoolState) (.acquire 7)
        = ((⟨1, 1, [], [0], [5, 7]⟩ : PoolState), []) ∧
    poolStep (⟨1, 1, [], [0], [5]⟩ : PoolState) (.release 0)
        = ((⟨1, 1, [], [0], []⟩ : PoolState), [.resolved 5 0]) :=
  ⟨(pool_bounded_and_fifo 1 [.acquire 0, .acquire 1]
      (⟨1, 1, [], [0], [5]⟩ : PoolState) 7 0).1,
   (pool_bounded_and_fifo 1 [.acquire 0, .acquire 1]
      (⟨1, 1, [], [0], [5]⟩ : PoolState) 7 0).2.1 rfl (by decide),
   (pool_bounded_and_fifo 1 [.acquire 0, .acquire 1]
      (⟨1, 1, [], [0], [5]⟩ : PoolState) 7 0).2.2 (by decide) 5 [] rfl⟩

/-- Claim C6: writing any byte sequence to a blob through a sequence of
`batchSegments` calls (each buffer internally chunked to the protocol's
maximum segment size), then reading it back via repeated `getSegment`
until the final-segment signal and concatenating the segments in arrival
order, reproduces exactly the original byte sequence and its length. -/
theorem blob_roundtrip (segMax fuel : Nat) (buffers : List (List Nat))
    (hseg : 1 ≤ segMax)
    (hfuel : (buffers.foldl (batchSegments segMax)
        ⟨[]⟩).segments.length ≤ fuel) :
    (readAllSegments fuel
        ⟨(buffers.foldl (batchSegments segMax) ⟨[]⟩).segments⟩).flatten
      = buffers.flatten ∧
    (readAllSegments fuel
        ⟨(buffers.foldl (batchSegments segMax) ⟨[]⟩).segments⟩).flatten.length
      = buffers.flatten.length := by
  rw [readAllSegments_all fuel _ hfuel]
  have h2 := foldl_batchSegments_flatten segMax hseg buffers ⟨[]⟩
  simp only [List.flatten_nil, List.nil_append] at h2
  exact ⟨h2, by rw [h2]⟩

/-- Concrete instance of C6: bytes `[1,2,3]` then `[4]` written with a
maximum segment size of two are read back unchanged. -/
theorem blob_roundtrip_witness :
    1 ≤ 2 ∧
    (readAllSegments 3
        ⟨(([[1, 2, 3], [4]] : List (List Nat)).foldl
            (batchSegments 2) ⟨[]⟩).segments⟩).flatten
      = ([[1, 2, 3], [4]] : List (List Nat)).flatten ∧
    (readAllSegments 3
        ⟨(([[1, 2, 3], [4]] : List (List Nat)).foldl
            (batchSegments 2) ⟨[]⟩).segments⟩).flatten.length
      = ([[1, 2, 3], [4]] : List (List Nat)).flatten.length :=
  ⟨by decide,
   (blob_roundtrip 2 3 [[1, 2, 3], [4]] (by decide) (by decide)).1,
   (blob_roundtrip 2 3 [[1, 2, 3], [4]] (by decide) (by decide)).2⟩

/-- Claim C7: `startTransaction` without an isolation argument uses the
read-committed preset (whose TPB codes include the read-committed
code), and exactly five named isolation presets are provided as ordered
code sequences, pairwise distinct. -/
theorem startTransaction_default_and_presets :
    startTransactionTPB none = ISOLATION_READ_COMMITED ∧
    isc_tpb_read_committed ∈ startTransactionTPB none ∧
    isolationPresets.length = 5 ∧
    isolationPresets.Nodup := by
  refine ⟨rfl, ?_, rfl, ?_⟩ <;> decide

/-- Claim C8: the type codec decodes a fixed-point numeric column to the
raw integer value multiplied by ten raised to the column descriptor's
scale. -/
theorem decodeNumeric_scale_power (m : ColumnMetadata) (raw : Int) :
    decodeNumericColumn m raw = (raw : ℚ) * (10 : ℚ) ^ (m.scale.getD 0) := by
  unfold decodeNumericColumn decodeFixedPoint
  by_cases h : 0 ≤ m.scale.getD 0
  · rw [if_pos h, ← zpow_natCast, Int.toNat_of_nonneg h]
  · rw [if_neg h, div_eq_mul_inv, ← zpow_natCast,
      Int.toNat_of_nonneg (by omega : (0 : ℤ) ≤ -(m.scale.getD 0)),
      ← zpow_neg, neg_neg]

/-- Claim C9: `fetch` and `fetchAll` accept an absent (undefined)
transaction argument; their results do not depend on it, and after an
execute the cursor can be fetched with no transaction supplied because
the cursor context is carried by the statement itself. -/
theorem fetch_accepts_undefined_transaction
    (tx : Transaction) (count : Nat) (s : StatementState) :
    fetch (some tx) count s = fetch none count s ∧
    fetchAll (some tx) s = fetchAll none s ∧
    ∀ rows, ∃ p, fetch none count (executeStmt tx rows s) = .ok p := by
  refine ⟨rfl, rfl, ?_⟩
  intro rows
  rw [fetch_def]
  show ∃ p,
    fetchCore count
      { s with cursor := .active rows, roundTrips := s.roundTrips + 1 } = .ok p
  simp only [fetchCore]
  by_cases h : rows.length ≤ count
  · rw [if_pos h]
    exact ⟨_, rfl⟩
  · rw [if_neg h]
    exact ⟨_, rfl⟩

/-- Claim C10: every modelled operation's completion callback is invoked
with mutually exclusive outcomes — either a non-null error and no
result, or a null error and the result value, never both and never
neither. -/
theorem callback_outcomes_exclusive :
    (∀ (tx : Option Transaction) (count : Nat) (s : StatementState),
      exclusiveOutcome (callbackArgs (fetch tx count s))) ∧
    (∀ (tx : Option Transaction) (s : StatementState),
      exclusiveOutcome (callbackArgs (fetchAll tx s))) ∧
    (∀ ph, exclusiveOutcome (callbackArgs (commitTx ph).1)) ∧
    (∀ ph, exclusiveOutcome (callbackArgs (commitRetainingTx ph).1)) ∧
    (∀ ph, exclusiveOutcome (callbackArgs (rollbackTx ph).1)) ∧
    (∀ ph, exclusiveOutcome (callbackArgs (rollbackRetainingTx ph).1)) ∧
    (∀ ph, exclusiveOutcome (callbackArgs (executeTx ph).1)) :=
  ⟨fun _ _ s => exclusiveOutcome_callbackArgs _,
   fun _ s => exclusiveOutcome_callbackArgs _,
   fun _ => exclusiveOutcome_callbackArgs _,
   fun _ => exclusiveOutcome_callbackArgs _,
   fun _ => exclusiveOutcome_callbackArgs _,
   fun _ => exclusiveOutcome_callbackArgs _,
   fun _ => exclusiveOutcome_callbackArgs _⟩

end Firebird
